import Mathlib

/-!
Shallow embedding of the `robotally` repository: an AppEngine GitHub webhook
that aggregates review votes and emoji reactions from issue/PR comments and
maintains a single status-report comment per thread.

Sources embedded: `auth.go` (configuration constants), `robotally.go`
(`handler`, `aggregate`, `status` and the package-level `disabled` map),
and the event payload structures.

Modelling conventions:
- Go strings are Lean `String`s; text scanning works over `List Char`
  (`String.data`), which for the ASCII markers involved coincides with Go's
  byte-wise view.
- Go maps (`map[string]bool`, `map[string]map[string]struct{}`) are modelled
  as association lists with unique keys kept in insertion order; a map's
  iteration order in Go is arbitrary, which the embedding reflects by
  quantifying claims over the enumeration order where it matters.
- The external comment store and HTTP transport are modelled by passing the
  listed comments in and returning the list of store operations the handler
  would issue; store calls are modelled on their success path (failures are
  external and propagate as server errors without further logic).
-/

namespace Robotally

/-- Engine identity, from `auth.go`: the GitHub user the reviews are
aggregated with. -/
def githubUser : String := "robotally"

/-- Model of the package-level map `disabled` in `robotally.go`
(`map[string]bool{":+1": true, ":-1": true}`): membership test of the
disabled-reaction set. -/
def disabled (s : String) : Bool := s == ":+1" || s == ":-1"

/-- Model of `github.IssueComment` restricted to the fields the source
reads: `ID`, `User.Login` and the body. -/
structure Comment where
  id : Nat
  user : String
  body : String
deriving DecidableEq, Repr

/-- Text of a comment as scanned by the source. The source scans
`comment.String()`, the go-github library's textual dump of the comment
struct, which embeds the body verbatim; GitHub login syntax excludes `:`
and the numeric fields cannot produce a `:`-delimited marker, so markers
can only originate in the body, and the scanned text is modelled as the
comment body. -/
def Comment.text (c : Comment) : List Char := c.body.data

/-- Character class of the reaction regexp `:[a-z0-9_]+:` in
`robotally.go` line 131. -/
def isWordChar (c : Char) : Bool :=
  ('a' ≤ c && c ≤ 'z') || ('0' ≤ c && c ≤ '9') || c == '_'

/-- Test whether `pat` is an initial segment of `s` (prefix test used to
model Go's substring search and regexp anchoring). -/
def beginsWith : List Char → List Char → Bool
  | [], _ => true
  | _ :: _, [] => false
  | p :: ps, c :: cs => p == c && beginsWith ps cs

/-- Model of Go's `strings.Contains s pat`: `pat` occurs contiguously
somewhere in `s`. -/
def containsTok : List Char → List Char → Bool
  | [], pat => pat.isEmpty
  | s@(_ :: rest), pat => beginsWith pat s || containsTok rest pat

/-- The up-vote marker `:+1:`. -/
def upTok : List Char := ":+1:".data

/-- The down-vote marker `:-1:`. -/
def downTok : List Char := ":-1:".data

/-- Fuelled scanner for `regexp.MustCompile(":[a-z0-9_]+:").FindAllString(s, -1)`:
leftmost match first, greedy run of word characters closed by a colon,
scanning resumes after the end of each match (matches do not overlap), and
on a failed attempt the scan advances one character. The fuel only bounds
recursion depth; `findEmojis` supplies `s.length`, which suffices because
every recursive call proceeds on a strict suffix. -/
def findEmojisF : Nat → List Char → List (List Char)
  | 0, _ => []
  | _ + 1, [] => []
  | fuel + 1, c :: rest =>
    if c == ':' then
      match rest.takeWhile isWordChar, rest.dropWhile isWordChar with
      | r :: rs, ':' :: rest3 => (':' :: ((r :: rs) ++ [':'])) :: findEmojisF fuel rest3
      | _, _ => findEmojisF fuel rest
    else findEmojisF fuel rest

/-- All reaction codes found in a text, as matched by the source's regexp
(`robotally.go` lines 131-132). -/
def findEmojis (s : List Char) : List (List Char) := findEmojisF s.length s

/-- Rebuild a `String` from scanned characters. -/
def strOfChars (l : List Char) : String := String.mk l

/-- Shape of a reaction code produced by the regexp `:[a-z0-9_]+:`: a colon,
a non-empty run of word characters, a closing colon. -/
def isEmojiShape (e : List Char) : Bool :=
  match e with
  | ':' :: rest =>
    !(rest.dropLast.isEmpty) && rest.dropLast.all isWordChar && rest.getLast? == some ':'
  | _ => false

/-- Vote tally: user login to approve/reject flag
(Go `map[string]bool`, association list with unique keys). -/
abbrev VMap := List (String × Bool)

/-- Reaction tally: reaction code to the set of users that used it
(Go `map[string]map[string]struct{}`, association list of user lists). -/
abbrev RMap := List (String × List String)

/-- Model of the Go map assignment `votes[u] = b`: replace the value at an
existing key, or append a new binding. -/
def setVote : VMap → String → Bool → VMap
  | [], u, b => [(u, b)]
  | p :: rest, u, b => if p.1 == u then (u, b) :: rest else p :: setVote rest u b

/-- Association-list lookup `votes[u]`: the vote recorded for a user, if
any. -/
def lookupVote (vs : VMap) (u : String) : Option Bool :=
  (vs.find? (fun p => p.1 == u)).map (fun p => p.2)

/-- Model of the Go set insertion `users[u] = struct{}{}`: add the user if
not already present. -/
def addUser (us : List String) (u : String) : List String :=
  if us.contains u then us else us ++ [u]

/-- Model of `reactions[emoji][user] = struct{}{}` with the nil-map guard of
`robotally.go` lines 134-138: create the user set for a fresh code, then add
the user. -/
def addReaction : RMap → String → String → RMap
  | [], e, u => [(e, [u])]
  | p :: rest, e, u =>
    if p.1 == e then (p.1, addUser p.2 u) :: rest else p :: addReaction rest e u

/-- One iteration of the comment loop in `aggregate` (`robotally.go` lines
119-141): skip the engine's own comments; record an up-vote if `:+1:`
occurs (checked first), otherwise a down-vote if `:-1:` occurs; then union
in every non-disabled reaction code found in the text. -/
def aggStep (st : VMap × RMap) (c : Comment) : VMap × RMap :=
  if c.user == githubUser then st
  else
    let votes :=
      if containsTok c.text upTok then setVote st.1 c.user true
      else if containsTok c.text downTok then setVote st.1 c.user false
      else st.1
    let reactions := (findEmojis c.text).foldl
      (fun rs e =>
        if disabled (strOfChars e) then rs else addReaction rs (strOfChars e) c.user)
      st.2
    (votes, reactions)

/-- Model of `aggregate` (`robotally.go` lines 114-143): fold the per-comment
step over the comment list in creation order, starting from empty tallies. -/
def aggregate (cs : List Comment) : VMap × RMap := cs.foldl aggStep ([], [])

/-- Mention rendered for a user: `"@" + user`. -/
def atUser (u : String) : String := "@" ++ u

/-- Lexicographic less-or-equal on character lists, by code point; on the
texts involved this coincides with Go's byte-wise string order (UTF-8
preserves code-point order). -/
def lexLeB : List Char → List Char → Bool
  | [], _ => true
  | _ :: _, [] => false
  | a :: as, b :: bs => if a = b then lexLeB as bs else decide (a < b)

/-- Lexicographic order on strings, the order `sort.Strings` sorts by. -/
def strLe (a b : String) : Prop := lexLeB a.data b.data = true

instance instDecStrLe : DecidableRel strLe :=
  fun a b => instDecidableEqBool (lexLeB a.data b.data) true

/-- Model of Go's `sort.Strings`: ascending lexicographic sort. The source's
sort is characterised by producing a sorted permutation of its input, which
(strings being totally ordered) any sorting algorithm matches extensionally;
insertion sort is used because it is structurally recursive. -/
def sortStrings (l : List String) : List String := List.insertionSort strLe l

/-- Model of Go's `strings.Join(l, " ")`. -/
def joinSp : List String → String
  | [] => ""
  | [s] => s
  | s :: rest => s ++ " " ++ joinSp rest

/-- Approve mention list of the report (`robotally.go` lines 155-164): the
`@`-mentions of users voting `true`, sorted. Collecting by filtering instead
of by map iteration is harmless because the result is sorted either way. -/
def upList (votes : VMap) : List String :=
  sortStrings ((votes.filter (fun p => p.2)).map (fun p => atUser p.1))

/-- Reject mention list of the report (`robotally.go` lines 155-165): the
`@`-mentions of users voting `false`, sorted. -/
def downList (votes : VMap) : List String :=
  sortStrings ((votes.filter (fun p => !p.2)).map (fun p => atUser p.1))

/-- The fixed two-row vote table of the report (`robotally.go` lines
167-168). -/
def voteTable (votes : VMap) : String :=
  "| Vote | Count | Reviewers |\n| :---: | :---: | :---: |\n| :+1: | "
    ++ toString (upList votes).length ++ " | " ++ joinSp (upList votes)
    ++ " |\n| :-1: | " ++ toString (downList votes).length ++ " | "
    ++ joinSp (downList votes) ++ " |"

/-- The `reactions` map built in `status` (`robotally.go` lines 173-179):
per reaction code, the sorted `@`-mentions of its users. -/
def userCells (emojis : RMap) : RMap :=
  emojis.map (fun p => (p.1, sortStrings (p.2.map atUser)))

/-- Association-list lookup `reactions[e]` (absent keys give the empty
list, as a nil Go slice). -/
def lookupUsers (rs : RMap) (e : String) : List String :=
  ((rs.find? (fun p => p.1 == e)).map (fun p => p.2)).getD []

/-- The parallel assignment `emojis[i], emojis[j] = emojis[j], emojis[i]`
of `robotally.go` line 188. -/
def swapAt (es : List String) (i j : Nat) : List String :=
  ((es.set i (es.getD j "")).set j (es.getD i ""))

/-- Inner loop of the frequency ordering (`robotally.go` lines 186-191),
transcribed exactly: `j` ranges over the positions of the sub-slice
`emojis[i+1:]` (`rem` counts the remaining iterations), `second` is read
from the current array at offset `i+1+j`, and on `cnt first < cnt second`
the source swaps positions `i` and `j` — `j` being the sub-slice index,
not `i+1+j` — and continues with `first := second`. -/
def freqInner (cnt : String → Nat) (i : Nat) : Nat → Nat → List String → String → List String
  | 0, _, es, _ => es
  | rem + 1, j, es, first =>
    let second := es.getD (i + 1 + j) ""
    if cnt first < cnt second then
      freqInner cnt i rem (j + 1) (swapAt es i j) second
    else
      freqInner cnt i rem (j + 1) es first

/-- Outer loop of the frequency ordering (`robotally.go` lines 185-192):
`first` is re-read from the current array at each outer iteration, and the
inner loop runs over the remaining sub-slice. -/
def freqOuter (cnt : String → Nat) : Nat → Nat → List String → List String
  | 0, _, es => es
  | rem + 1, i, es =>
    freqOuter cnt rem (i + 1)
      (freqInner cnt i (es.length - (i + 1)) 0 es (es.getD i ""))

/-- The full "Order the reactions by frequency" pass of `robotally.go`
lines 185-192 over a key list. -/
def freqSort (cnt : String → Nat) (es : List String) : List String :=
  freqOuter cnt es.length 0 es

/-- Order in which `status` renders the reaction rows (`robotally.go`
lines 181-192): the reaction codes, passed through the source's frequency
ordering pass keyed by each code's user count. -/
def reactionOrder (emojis : RMap) : List String :=
  freqSort (fun e => (lookupUsers (userCells emojis) e).length)
    ((userCells emojis).map (fun p => p.1))

/-- The reaction rows of the report (`robotally.go` lines 195-197), one
`| code | users |` line per code in render order. -/
def reactionRows (emojis : RMap) : String :=
  String.join (((reactionOrder emojis).map
    (fun e => "| " ++ e ++ " | " ++ joinSp (lookupUsers (userCells emojis) e) ++ " |\n")))

/-- Model of `status` (`robotally.go` lines 147-201). The trailing
timestamp `time.Now().UTC().Format(...)` is passed in as `now`, already
formatted; everything else is computed as in the source: optional warning
banner, the two-row vote table, the reaction table when the reaction
mapping is non-empty, and the update stamp. -/
def status (warning : String) (votes : VMap) (emojis : RMap) (now : String) : String :=
  (if warning.length > 0 then ":exclamation: " ++ warning ++ " :exclamation:\n\n" else "")
    ++ voteTable votes
    ++ (if emojis.length > 0 then
          "\n\n| Reaction | Users |\n| :---: | :---: |\n" ++ reactionRows emojis
        else "")
    ++ "\n\n_Updated: " ++ now ++ "_"

/-- Opening delimiter of the warning banner, as matched by the regexp
`:exclamation: (.*) :exclamation:` of `robotally.go` line 93. -/
def warnOpenTok : List Char := ":exclamation: ".data

/-- Closing delimiter of the warning banner. -/
def warnCloseTok : List Char := " :exclamation:".data

/-- Greedy search for the capture length: try the longest capture first
(regexp `.*` is greedy), i.e. the largest `k` not exceeding the current
line length such that the closing delimiter starts at offset `k`. -/
def findCloseK (rest : List Char) : Nat → Option Nat
  | 0 => if beginsWith warnCloseTok rest then some 0 else none
  | k + 1 =>
    if beginsWith warnCloseTok (rest.drop (k + 1)) then some (k + 1)
    else findCloseK rest k

/-- Capture group of the warning regexp at a position where the opening
delimiter has just been consumed: the longest newline-free stretch followed
by the closing delimiter (`.` does not match a newline). -/
def warnGroup (rest : List Char) : Option (List Char) :=
  match findCloseK rest (rest.takeWhile (fun c => c != '\n')).length with
  | some k => some (rest.take k)
  | none => none

/-- Fuelled leftmost-match search for the warning regexp: at each position
try the opening delimiter followed by a captured group; the first position
admitting a full match wins. -/
def findWarnF : Nat → List Char → Option (List Char)
  | 0, _ => none
  | _ + 1, [] => none
  | fuel + 1, s@(_ :: rest) =>
    if beginsWith warnOpenTok s then
      match warnGroup (s.drop warnOpenTok.length) with
      | some g => some g
      | none => findWarnF fuel rest
    else findWarnF fuel rest

/-- First match's capture group of the warning regexp in a text
(`matches[0][1]` in `robotally.go` line 93), if any. -/
def findWarn (s : List Char) : Option (List Char) := findWarnF s.length s

/-- Warning recovery loop of `robotally.go` lines 90-97: scan the comments;
for each comment authored by the engine whose text matches the warning
regexp, overwrite the carried warning with the first match's capture. -/
def extractWarning (cs : List Comment) : String :=
  cs.foldl
    (fun w c =>
      if c.user == githubUser then
        match findWarn c.text with
        | some g => strOfChars g
        | none => w
      else w)
    ""

/-- Comment-store operations the handler can issue
(`client.Issues.CreateComment` and `client.Issues.EditComment`). -/
inductive StoreOp where
  | create (owner repo : String) (number : Nat) (body : String)
  | edit (id : Nat) (body : String)
deriving DecidableEq, Repr

/-- Whether a store operation creates a comment. -/
def StoreOp.isCreate : StoreOp → Bool
  | .create _ _ _ _ => true
  | .edit _ _ => false

/-- Refresh reconciliation loop of `robotally.go` lines 100-108: walk the
comments in creation order; at the first one authored by the engine, edit
its body to the fresh report and stop; if none is found, do nothing. -/
def refreshOps (report : String) : List Comment → List StoreOp
  | [] => []
  | c :: rest =>
    if c.user == githubUser then [StoreOp.edit c.id report]
    else refreshOps report rest

/-- Effect of one store operation on a thread's comment list: an edit
replaces the body of the comment carrying the edited id; a create appends
a fresh bot comment. -/
def applyOp (cs : List Comment) : StoreOp → List Comment
  | .edit i b => cs.map (fun c => if c.id == i then { c with body := b } else c)
  | .create _ _ _ b => cs ++ [{ id := 0, user := githubUser, body := b }]

/-- Effect of a sequence of store operations on a thread's comment list. -/
def applyOps (cs : List Comment) (ops : List StoreOp) : List Comment :=
  ops.foldl applyOp cs

/-- Pull-request payload fields the source reads: `Number` and
`Base.Branch` (the base endpoint is modelled as its branch name). -/
structure PullReq where
  number : Nat
  base : String
deriving DecidableEq, Repr

/-- Inbound webhook event, from the payload structures the source decodes:
action kind, sender login, optional issue payload (its number), optional
pull-request payload, and the repository's owner login and name. -/
structure Event where
  action : String
  sender : String
  issue : Option Nat
  pull : Option PullReq
  owner : String
  repo : String
deriving DecidableEq, Repr

/-- Response surface of the handler: success, or the HTTP error classes the
source can emit (400 invalid event, 405 unsupported action, 500 store
failure). -/
inductive HResp where
  | ok
  | badRequest (msg : String)
  | methodNotAllowed (msg : String)
  | serverError (msg : String)
deriving DecidableEq, Repr

/-- Whether a response is a client error (4xx). -/
def HResp.isClientError : HResp → Bool
  | .badRequest _ => true
  | .methodNotAllowed _ => true
  | _ => false

/-- Model of `handler` (`robotally.go` lines 29-110) after JSON decoding,
on the success path of the comment store: ignore self-originated events;
reject unsupported actions with 405 and no store operation; on "opened",
resolve the thread number from the issue else the pull request else 0,
attach the master-branch warning when applicable, and create a fresh empty
report; on "created", aggregate the supplied comment list, recover the
carried warning, render the report, and run the refresh reconciliation.
`comments` stands for the store's `ListComments` result consumed by the
"created" branch; `now` is the formatted render time. -/
def handle (e : Event) (comments : List Comment) (now : String) : HResp × List StoreOp :=
  if e.sender == githubUser then (HResp.ok, [])
  else if e.action != "opened" && e.action != "created" then
    (HResp.methodNotAllowed "Non-supported action", [])
  else if e.action == "opened" then
    let number :=
      match e.issue, e.pull with
      | some n, _ => n
      | none, some p => p.number
      | none, none => 0
    let warning :=
      match e.pull with
      | some p => if p.base == "master" then "Pull request against `master`" else ""
      | none => ""
    (HResp.ok, [StoreOp.create e.owner e.repo number (status warning [] [] now)])
  else
    let agg := aggregate comments
    (HResp.ok, refreshOps (status (extractWarning comments) agg.1 agg.2 now) comments)

end Robotally

namespace Robotally

/-! Order-theoretic facts about the lexicographic string order used by the
model of `sort.Strings`. -/

theorem lexLeB_total : ∀ as bs : List Char, lexLeB as bs = true ∨ lexLeB bs as = true
  | [], _ => Or.inl rfl
  | _ :: _, [] => Or.inr rfl
  | a :: as, b :: bs => by
    by_cases h : a = b
    · subst h
      simp only [lexLeB, if_pos rfl]
      exact lexLeB_total as bs
    · rcases lt_or_gt_of_ne h with hlt | hgt
      · exact Or.inl (by simp only [lexLeB, if_neg h, decide_eq_true_eq]; exact hlt)
      · exact Or.inr (by simp only [lexLeB, if_neg (Ne.symm h), decide_eq_true_eq]; exact hgt)

theorem lexLeB_trans :
    ∀ as bs cs : List Char, lexLeB as bs = true → lexLeB bs cs = true → lexLeB as cs = true
  | [], _, _, _, _ => rfl
  | _ :: _, [], _, h1, _ => by simp [lexLeB] at h1
  | _ :: _, _ :: _, [], _, h2 => by simp [lexLeB] at h2
  | a :: as, b :: bs, c :: cs, h1, h2 => by
    simp only [lexLeB] at h1 h2 ⊢
    by_cases hab : a = b
    · subst hab
      rw [if_pos rfl] at h1
      by_cases hbc : a = c
      · subst hbc
        rw [if_pos rfl] at h2 ⊢
        exact lexLeB_trans as bs cs h1 h2
      · rw [if_neg hbc] at h2 ⊢
        exact h2
    · rw [if_neg hab] at h1
      replace h1 : a < b := of_decide_eq_true h1
      by_cases hbc : b = c
      · subst hbc
        rw [if_neg hab]
        exact decide_eq_true h1
      · rw [if_neg hbc] at h2
        replace h2 : b < c := of_decide_eq_true h2
        have hac : a < c := lt_trans h1 h2
        rw [if_neg (ne_of_lt hac)]
        exact decide_eq_true hac

theorem lexLeB_antisymm :
    ∀ as bs : List Char, lexLeB as bs = true → lexLeB bs as = true → as = bs
  | [], [], _, _ => rfl
  | [], _ :: _, _, h2 => by simp [lexLeB] at h2
  | _ :: _, [], h1, _ => by simp [lexLeB] at h1
  | a :: as, b :: bs, h1, h2 => by
    simp only [lexLeB] at h1 h2
    by_cases hab : a = b
    · subst hab
      rw [if_pos rfl] at h1 h2
      rw [lexLeB_antisymm as bs h1 h2]
    · rw [if_neg hab] at h1
      rw [if_neg (Ne.symm hab)] at h2
      exact absurd (lt_trans (of_decide_eq_true h1) (of_decide_eq_true h2)) (lt_irrefl a)

instance : IsTotal String strLe := ⟨fun a b => lexLeB_total a.data b.data⟩

instance : IsTrans String strLe := ⟨fun a b c => lexLeB_trans a.data b.data c.data⟩

instance : IsAntisymm String strLe :=
  ⟨fun a b h1 h2 => by
    have h := lexLeB_antisymm a.data b.data h1 h2
    cases a
    cases b
    exact congrArg String.mk h⟩

theorem sorted_sortStrings (l : List String) : List.Sorted strLe (sortStrings l) :=
  List.sorted_insertionSort strLe l

theorem perm_sortStrings (l : List String) : (sortStrings l).Perm l :=
  List.perm_insertionSort strLe l

theorem mem_sortStrings {x : String} {l : List String} : x ∈ sortStrings l ↔ x ∈ l :=
  List.mem_insertionSort strLe

theorem sortStrings_eq_of_perm {l l' : List String} (h : l.Perm l') :
    sortStrings l = sortStrings l' :=
  List.eq_of_perm_of_sorted
    (((perm_sortStrings l).trans h).trans (perm_sortStrings l').symm)
    (sorted_sortStrings l) (sorted_sortStrings l')

/-! Facts about the reaction-code scanner and the aggregator. -/

theorem isEmojiShape_build (r : Char) (rs : List Char)
    (hall : (r :: rs).all isWordChar = true) :
    isEmojiShape (':' :: ((r :: rs) ++ [':'])) = true := by
  have h1 : ((r :: rs) ++ [':']).dropLast = r :: rs := List.dropLast_concat
  have h2 : ((r :: rs) ++ [':']).getLast? = some ':' := List.getLast?_concat _
  simp only [isEmojiShape, h1, h2, hall]
  rfl

theorem shape_findEmojisF :
    ∀ (fuel : Nat) (s e : List Char), e ∈ findEmojisF fuel s → isEmojiShape e = true
  | 0, _, _, h => absurd h (by simp [findEmojisF])
  | _ + 1, [], _, h => absurd h (by simp [findEmojisF])
  | fuel + 1, c :: rest, e, h => by
    simp only [findEmojisF] at h
    split at h
    · split at h
      · rename_i r rs rest3 heq1 heq2
        rcases List.mem_cons.mp h with rfl | hmem
        · have hall : (r :: rs).all isWordChar = true := by
            rw [List.all_eq_true]
            intro x hx
            exact List.mem_takeWhile_imp (heq1 ▸ hx)
          exact isEmojiShape_build r rs hall
        · exact shape_findEmojisF fuel rest3 e hmem
      · exact shape_findEmojisF fuel rest e h
    · exact shape_findEmojisF fuel rest e h

theorem shape_findEmojis {s e : List Char} (h : e ∈ findEmojis s) : isEmojiShape e = true :=
  shape_findEmojisF s.length s e h

theorem shape_strOfChars_ne {e : List Char} (h : isEmojiShape e = true) (t : String)
    (ht : isEmojiShape t.data = false) : strOfChars e ≠ t := by
  intro heq
  have hdata : e = t.data := congrArg String.data heq
  rw [hdata] at h
  rw [ht] at h
  exact absurd h Bool.false_ne_true

theorem shape_not_disabled {e : List Char} (h : isEmojiShape e = true) :
    disabled (strOfChars e) = false := by
  have h1 : strOfChars e ≠ ":+1" := shape_strOfChars_ne h ":+1" (by decide)
  have h2 : strOfChars e ≠ ":-1" := shape_strOfChars_ne h ":-1" (by decide)
  simp [disabled, h1, h2]

theorem lookupVote_setVote : ∀ (vs : VMap) (u : String) (b : Bool),
    lookupVote (setVote vs u b) u = some b
  | [], u, b => by simp [setVote, lookupVote, List.find?]
  | p :: rest, u, b => by
    simp only [setVote]
    by_cases h : (p.1 == u) = true
    · rw [if_pos h]
      simp [lookupVote, List.find?]
    · rw [if_neg h]
      have ih := lookupVote_setVote rest u b
      simp only [lookupVote, List.find?] at ih ⊢
      rw [Bool.of_not_eq_true h]
      exact ih

theorem mem_addReaction : ∀ (rs : RMap) (e u : String) (p : String × List String),
    p ∈ addReaction rs e u → p.1 = e ∨ ∃ q ∈ rs, p.1 = q.1
  | [], e, u, p, h => by
    simp only [addReaction, List.mem_singleton] at h
    exact Or.inl (by rw [h])
  | q :: rest, e, u, p, h => by
    simp only [addReaction] at h
    by_cases hq : (q.1 == e) = true
    · rw [if_pos hq] at h
      rcases List.mem_cons.mp h with rfl | hmem
      · exact Or.inl (eq_of_beq hq)
      · exact Or.inr ⟨p, List.mem_cons_of_mem q hmem, rfl⟩
    · rw [if_neg hq] at h
      rcases List.mem_cons.mp h with rfl | hmem
      · exact Or.inr ⟨p, List.mem_cons_self p rest, rfl⟩
      · rcases mem_addReaction rest e u p hmem with he | ⟨q', hq', he⟩
        · exact Or.inl he
        · exact Or.inr ⟨q', List.mem_cons_of_mem q hq', he⟩

theorem keys_reactionFold (u : String) :
    ∀ (es : List (List Char)) (rs : RMap),
      (∀ e ∈ es, isEmojiShape e = true) →
      ∀ p ∈ es.foldl (fun rs e =>
          if disabled (strOfChars e) then rs else addReaction rs (strOfChars e) u) rs,
        (disabled p.1 = false ∧ isEmojiShape p.1.data = true) ∨ ∃ q ∈ rs, p.1 = q.1
  | [], _, _, p, hp => Or.inr ⟨p, hp, rfl⟩
  | e :: es, rs, hsh, p, hp => by
    simp only [List.foldl_cons] at hp
    rcases keys_reactionFold u es _
        (fun e' he' => hsh e' (List.mem_cons_of_mem e he')) p hp with hK | ⟨q, hq, he⟩
    · exact Or.inl hK
    · by_cases hd : disabled (strOfChars e) = true
      · rw [if_pos hd] at hq
        exact Or.inr ⟨q, hq, he⟩
      · rw [if_neg hd] at hq
        rcases mem_addReaction rs (strOfChars e) u q hq with hqe | ⟨q', hq', he'⟩
        · have hshape : isEmojiShape e = true := hsh e (List.mem_cons_self e es)
          refine Or.inl ⟨?_, ?_⟩
          · rw [he, hqe]
            exact shape_not_disabled hshape
          · rw [he, hqe]
            exact hshape
        · exact Or.inr ⟨q', hq', by rw [he, he']⟩

theorem keys_aggStepFold :
    ∀ (cs : List Comment) (st : VMap × RMap),
      (∀ p ∈ st.2, disabled p.1 = false ∧ isEmojiShape p.1.data = true) →
      ∀ p ∈ (cs.foldl aggStep st).2, disabled p.1 = false ∧ isEmojiShape p.1.data = true
  | [], _, hst, p, hp => hst p hp
  | c :: cs, st, hst, p, hp => by
    simp only [List.foldl_cons] at hp
    refine keys_aggStepFold cs (aggStep st c) ?_ p hp
    intro q hq
    simp only [aggStep] at hq
    by_cases hb : (c.user == githubUser) = true
    · rw [if_pos hb] at hq
      exact hst q hq
    · rw [if_neg hb] at hq
      have hq' : q ∈ (findEmojis c.text).foldl (fun rs e =>
          if disabled (strOfChars e) then rs
          else addReaction rs (strOfChars e) c.user) st.2 := hq
      rcases keys_reactionFold c.user (findEmojis c.text) st.2
          (fun _ he => shape_findEmojis he) q hq' with hK | ⟨q', hq2, he⟩
      · exact hK
      · have hst' := hst q' hq2
        exact ⟨he ▸ hst'.1, he ▸ hst'.2⟩

theorem keys_aggregate {cs : List Comment} {p : String × List String}
    (hp : p ∈ (aggregate cs).2) :
    disabled p.1 = false ∧ isEmojiShape p.1.data = true :=
  keys_aggStepFold cs ([], []) (by intro q hq; simp at hq) p hp

/-! Facts about the source's frequency-ordering pass: it only permutes
positions within bounds, so it never introduces a reaction code. -/

theorem length_swapAt (es : List String) (i j : Nat) : (swapAt es i j).length = es.length := by
  simp [swapAt]

theorem mem_swapAt {x : String} {es : List String} {i j : Nat}
    (hi : i < es.length) (hj : j < es.length) (hx : x ∈ swapAt es i j) : x ∈ es := by
  rcases List.mem_or_eq_of_mem_set hx with hx1 | rfl
  · rcases List.mem_or_eq_of_mem_set hx1 with hx2 | rfl
    · exact hx2
    · rw [List.getD_eq_getElem es "" hj]
      exact List.getElem_mem hj
  · rw [List.getD_eq_getElem es "" hi]
    exact List.getElem_mem hi

theorem length_freqInner (cnt : String → Nat) (i : Nat) :
    ∀ (rem j : Nat) (es : List String) (first : String),
      (freqInner cnt i rem j es first).length = es.length
  | 0, _, _, _ => rfl
  | rem + 1, j, es, first => by
    simp only [freqInner]
    by_cases h : cnt first < cnt (es.getD (i + 1 + j) "")
    · rw [if_pos h, length_freqInner cnt i rem (j + 1) _ _, length_swapAt]
    · rw [if_neg h, length_freqInner cnt i rem (j + 1) es first]

theorem mem_freqInner (cnt : String → Nat) (i : Nat) :
    ∀ (rem j : Nat) (es : List String) (first x : String),
      i + 1 + j + rem ≤ es.length → x ∈ freqInner cnt i rem j es first → x ∈ es
  | 0, _, _, _, _, _, hx => hx
  | rem + 1, j, es, first, x, hb, hx => by
    simp only [freqInner] at hx
    have hi : i < es.length := by omega
    have hj : j < es.length := by omega
    by_cases h : cnt first < cnt (es.getD (i + 1 + j) "")
    · rw [if_pos h] at hx
      have hb' : i + 1 + (j + 1) + rem ≤ (swapAt es i j).length := by
        rw [length_swapAt]
        omega
      exact mem_swapAt hi hj (mem_freqInner cnt i rem (j + 1) _ _ x hb' hx)
    · rw [if_neg h] at hx
      exact mem_freqInner cnt i rem (j + 1) es first x (by omega) hx

theorem mem_freqOuter (cnt : String → Nat) :
    ∀ (rem i : Nat) (es : List String) (x : String), x ∈ freqOuter cnt rem i es → x ∈ es
  | 0, _, _, _, hx => hx
  | rem + 1, i, es, x, hx => by
    simp only [freqOuter] at hx
    have h2 := mem_freqOuter cnt rem (i + 1) _ x hx
    by_cases hlen : i + 1 ≤ es.length
    · exact mem_freqInner cnt i (es.length - (i + 1)) 0 es (es.getD i "") x (by omega) h2
    · have h0 : es.length - (i + 1) = 0 := by omega
      rw [h0] at h2
      exact h2

theorem mem_freqSort {cnt : String → Nat} {es : List String} {x : String}
    (hx : x ∈ freqSort cnt es) : x ∈ es :=
  mem_freqOuter cnt es.length 0 es x hx

theorem mem_reactionOrder {k : String} {em : RMap} (h : k ∈ reactionOrder em) :
    ∃ p ∈ em, p.1 = k := by
  have h2 : k ∈ (userCells em).map (fun p => p.1) := mem_freqSort h
  simp only [userCells, List.map_map, List.mem_map, Function.comp] at h2
  rcases h2 with ⟨p, hp, he⟩
  exact ⟨p, hp, he⟩

/-! Facts about the vote mention lists of the report. -/

theorem mem_upList {s : String} {votes : VMap} :
    s ∈ upList votes ↔ ∃ u, (u, true) ∈ votes ∧ s = atUser u := by
  simp only [upList, mem_sortStrings, List.mem_map, List.mem_filter]
  constructor
  · rintro ⟨⟨u, b⟩, ⟨hm, hb⟩, rfl⟩
    cases b
    · exact absurd hb (by simp)
    · exact ⟨u, hm, rfl⟩
  · rintro ⟨u, hm, rfl⟩
    exact ⟨(u, true), ⟨hm, rfl⟩, rfl⟩

theorem mem_downList {s : String} {votes : VMap} :
    s ∈ downList votes ↔ ∃ u, (u, false) ∈ votes ∧ s = atUser u := by
  simp only [downList, mem_sortStrings, List.mem_map, List.mem_filter]
  constructor
  · rintro ⟨⟨u, b⟩, ⟨hm, hb⟩, rfl⟩
    cases b
    · exact ⟨u, hm, rfl⟩
    · exact absurd hb (by simp)
  · rintro ⟨u, hm, rfl⟩
    exact ⟨(u, false), ⟨hm, rfl⟩, rfl⟩

theorem atUser_inj {u v : String} (h : atUser u = atUser v) : u = v := by
  have hd := congrArg String.data h
  simp only [atUser] at hd
  rw [String.data_append, String.data_append] at hd
  have hd2 : u.data = v.data := by simpa using hd
  cases u
  cases v
  exact congrArg String.mk hd2

theorem nodup_keys_value : ∀ (l : VMap), (l.map (fun p => p.1)).Nodup →
    ∀ {u : String} {a b : Bool}, (u, a) ∈ l → (u, b) ∈ l → a = b
  | [], _, _, _, _, ha, _ => absurd ha (List.not_mem_nil _)
  | p :: rest, hnd, u, a, b, ha, hb => by
    rw [List.map_cons, List.nodup_cons] at hnd
    rcases List.mem_cons.mp ha with heqa | ha'
    · rcases List.mem_cons.mp hb with heqb | hb'
      · have h3 : (u, a) = (u, b) := heqa.trans heqb.symm
        injection h3 with _ h4
      · exfalso
        apply hnd.1
        rw [← heqa]
        exact List.mem_map.mpr ⟨(u, b), hb', rfl⟩
    · rcases List.mem_cons.mp hb with heqb | hb'
      · exfalso
        apply hnd.1
        rw [← heqb]
        exact List.mem_map.mpr ⟨(u, a), ha', rfl⟩
      · exact nodup_keys_value rest hnd.2 ha' hb'

theorem upList_perm {v v' : VMap} (h : v.Perm v') : upList v = upList v' :=
  sortStrings_eq_of_perm ((h.filter _).map _)

theorem downList_perm {v v' : VMap} (h : v.Perm v') : downList v = downList v' :=
  sortStrings_eq_of_perm ((h.filter _).map _)

theorem voteTable_perm {v v' : VMap} (h : v.Perm v') : voteTable v = voteTable v' := by
  simp only [voteTable, upList_perm h, downList_perm h]

/-! Facts about the refresh reconciliation loop. -/

theorem refreshOps_eq_find (report : String) : ∀ cs : List Comment,
    refreshOps report cs =
      (match cs.find? (fun c => c.user == githubUser) with
       | some c => [StoreOp.edit c.id report]
       | none => [])
  | [] => rfl
  | c :: cs => by
    simp only [refreshOps]
    by_cases h : (c.user == githubUser) = true
    · rw [if_pos h, @List.find?_cons_of_pos _ (fun c => c.user == githubUser) c cs h]
    · rw [if_neg h, @List.find?_cons_of_neg _ (fun c => c.user == githubUser) c cs h]
      exact refreshOps_eq_find report cs

theorem aggfold_filter : ∀ (cs : List Comment) (st : VMap × RMap),
    cs.foldl aggStep st = (cs.filter (fun c => !(c.user == githubUser))).foldl aggStep st
  | [], _ => rfl
  | c :: cs, st => by
    simp only [List.foldl_cons, List.filter_cons]
    by_cases h : (c.user == githubUser) = true
    · have hstep : aggStep st c = st := by simp [aggStep, h]
      have hneg : (!(c.user == githubUser)) = false := by rw [h]; rfl
      rw [hneg, hstep]
      simp only [Bool.false_eq_true, if_false]
      exact aggfold_filter cs st
    · have hneg : (!(c.user == githubUser)) = true := by
        rw [Bool.of_not_eq_true h]
        rfl
      rw [hneg]
      simp only [if_true, List.foldl_cons]
      exact aggfold_filter cs (aggStep st c)

end Robotally

namespace Robotally

/-! The claims. -/

/-- C1 (code-bug evidence): the claim says the reaction table rows always
appear in descending order of user count, and the source's own comment
announces "Order the reactions by frequency", but the ordering pass swaps
`emojis[i]` with `emojis[j]` where `j` indexes the sub-slice `emojis[i+1:]`
rather than the full slice. At the reaction mapping
`{":zap:" -> {u1}, ":bug:" -> {u1, u2}}` (enumerated in that order) the
pass leaves the keys untouched, so the rendered rows carry user counts
1 then 2 — strictly ascending, not descending. -/
theorem c1_rows_not_descending_eval :
    reactionOrder [(":zap:", ["u1"]), (":bug:", ["u1", "u2"])] = [":zap:", ":bug:"] ∧
    (reactionOrder [(":zap:", ["u1"]), (":bug:", ["u1", "u2"])]).map
      (fun e => (lookupUsers (userCells [(":zap:", ["u1"]), (":bug:", ["u1", "u2"])]) e).length)
      = [1, 2] ∧
    ¬ List.Pairwise (fun a b : Nat => a ≥ b)
      ((reactionOrder [(":zap:", ["u1"]), (":bug:", ["u1", "u2"])]).map
        (fun e => (lookupUsers (userCells [(":zap:", ["u1"]), (":bug:", ["u1", "u2"])]) e).length)) := by
  refine ⟨by decide, by decide, ?_⟩
  intro hpw
  rw [show (reactionOrder [(":zap:", ["u1"]), (":bug:", ["u1", "u2"])]).map
      (fun e => (lookupUsers (userCells [(":zap:", ["u1"]), (":bug:", ["u1", "u2"])]) e).length)
      = [1, 2] from by decide] at hpw
  rcases List.pairwise_cons.mp hpw with ⟨h12, _⟩
  exact absurd (h12 2 (List.mem_singleton.mpr rfl)) (by decide)

/-- C2 (counterexample): rendering is not deterministic in the reaction
mapping as a mapping. The two association lists below are permutations of
each other with identical (duplicate-free) keys — i.e. they denote the same
reaction mapping, differing only in the enumeration order a Go map
iteration might produce — yet with the same warning, votes and timestamp
they render to different report texts, because the broken frequency pass
leaves the enumeration order visible in the row order. -/
theorem c2_determinism_counterexample :
    ([(":bug:", ["u1", "u2"]), (":zap:", ["u1"])] : RMap).Perm
      [(":zap:", ["u1"]), (":bug:", ["u1", "u2"])] ∧
    (([(":zap:", ["u1"]), (":bug:", ["u1", "u2"])] : RMap).map (fun p => p.1)).Nodup ∧
    status "" [] [(":zap:", ["u1"]), (":bug:", ["u1", "u2"])] "Mon Jan 2 15:04:05 UTC 2006" ≠
      status "" [] [(":bug:", ["u1", "u2"]), (":zap:", ["u1"])] "Mon Jan 2 15:04:05 UTC 2006" :=
  ⟨List.Perm.swap _ _ _, by decide, by decide⟩

/-- C2 (amended): rendering is deterministic given the warning, the
timestamp, the reaction mapping's enumeration, and the vote mapping as a
mapping — any two enumerations of the same vote mapping render
byte-identically (the vote lists are re-sorted). Only the reaction
mapping's enumeration order can leak into the output (through the row
order), as the counterexample shows. -/
theorem c2_amended_vote_determinism (w : String) (v v' : VMap) (r : RMap) (t : String)
    (h : v.Perm v') : status w v r t = status w v' r t := by
  simp only [status, voteTable_perm h]

/-- C2 amended claim instantiated: permuting a concrete two-entry vote
mapping leaves the rendered report unchanged. -/
theorem c2_amended_witness :
    ([("b", true), ("a", true)] : VMap).Perm [("a", true), ("b", true)] ∧
    status "" [("b", true), ("a", true)] [] "T" = status "" [("a", true), ("b", true)] [] "T" :=
  ⟨List.Perm.swap _ _ _,
   c2_amended_vote_determinism "" [("b", true), ("a", true)] [("a", true), ("b", true)] [] "T"
     (List.Perm.swap _ _ _)⟩

/-- C3: on a Refresh event the reconciliation loop performs at most one
operation, never a create; the operation list is exactly one edit of the
first comment (in creation order) authored by the engine's identity,
carrying the fresh report as body; and when no comment is authored by the
engine, no operation is issued and the thread's comment list is left
unchanged. -/
theorem c3_refresh_single_edit (report : String) (cs : List Comment) :
    (refreshOps report cs).length ≤ 1 ∧
    (∀ op ∈ refreshOps report cs, op.isCreate = false) ∧
    refreshOps report cs =
      (match cs.find? (fun c => c.user == githubUser) with
       | some c => [StoreOp.edit c.id report]
       | none => []) ∧
    ((∀ c ∈ cs, c.user ≠ githubUser) → applyOps cs (refreshOps report cs) = cs) := by
  refine ⟨?_, ?_, refreshOps_eq_find report cs, ?_⟩
  · rw [refreshOps_eq_find report cs]
    split <;> simp
  · rw [refreshOps_eq_find report cs]
    split <;> simp [StoreOp.isCreate]
  · intro hnone
    have hfind : cs.find? (fun c => c.user == githubUser) = none :=
      List.find?_eq_none.mpr (fun c hc => by simpa using hnone c hc)
    rw [refreshOps_eq_find report cs, hfind]
    rfl

/-- C3 instantiated: a thread with a single non-bot comment is unchanged by
a refresh. -/
theorem c3_witness :
    applyOps [⟨7, "alice", "hello"⟩] (refreshOps "rep" [⟨7, "alice", "hello"⟩]) =
      [⟨7, "alice", "hello"⟩] :=
  (c3_refresh_single_edit "rep" [⟨7, "alice", "hello"⟩]).2.2.2 (by decide)

/-- C4 (counterexample): a notification whose action is neither "opened"
nor "created" is not always answered with a client error: when the sender
is the engine's own identity the handler returns before the action check
and responds with plain success (and no store operation). -/
theorem c4_counterexample :
    (("deleted" : String) ≠ "opened" ∧ ("deleted" : String) ≠ "created") ∧
    handle ⟨"deleted", "robotally", none, none, "own", "repo"⟩ [] "T" = (HResp.ok, []) ∧
    (handle ⟨"deleted", "robotally", none, none, "own", "repo"⟩ [] "T").1.isClientError
      = false := by
  refine ⟨⟨by decide, by decide⟩, by decide, by decide⟩

/-- C4 (amended): for every inbound notification whose sender is not the
engine's own identity and whose action kind is neither "opened" nor
"created", the handler responds 405 (a client error) and issues no
comment-store operation. -/
theorem c4_amended (e : Event) (cs : List Comment) (now : String)
    (hs : e.sender ≠ githubUser) (ho : e.action ≠ "opened") (hc : e.action ≠ "created") :
    handle e cs now = (HResp.methodNotAllowed "Non-supported action", []) ∧
    HResp.isClientError (HResp.methodNotAllowed "Non-supported action") = true := by
  have h1 : (e.sender == githubUser) = false := beq_eq_false_iff_ne.mpr hs
  have h2 : (e.action != "opened" && e.action != "created") = true := by
    simp [bne_iff_ne, ho, hc]
  refine ⟨?_, rfl⟩
  simp only [handle, h1, h2]
  rfl

/-- C4 amended claim instantiated at a concrete unsupported action from a
third-party sender. -/
theorem c4_amended_witness :
    handle ⟨"deleted", "alice", none, none, "own", "repo"⟩ [] "T" =
      (HResp.methodNotAllowed "Non-supported action", []) :=
  (c4_amended ⟨"deleted", "alice", none, none, "own", "repo"⟩ [] "T"
    (by decide) (by decide) (by decide)).1

/-- C5: comments authored by the engine's own identity contribute nothing
to the aggregated vote mapping or reaction mapping — aggregation over any
comment history equals aggregation over that history with the engine's
comments removed. -/
theorem c5_self_comments_ignored (cs : List Comment) :
    aggregate cs = aggregate (cs.filter (fun c => !(c.user == githubUser))) :=
  aggfold_filter cs ([], [])

/-- C6: for every vote mapping (keys unique, as for a Go map), the approve
and reject mention lists of the report are each sorted in the ascending
lexicographic order used by `sort.Strings`, no mention is in both lists,
and every user of the mapping appears in exactly the list matching their
vote. -/
theorem c6_vote_lists (votes : VMap) (hnd : (votes.map (fun p => p.1)).Nodup) :
    List.Sorted strLe (upList votes) ∧ List.Sorted strLe (downList votes) ∧
    (∀ s, ¬ (s ∈ upList votes ∧ s ∈ downList votes)) ∧
    (∀ p ∈ votes,
      (p.2 = true → atUser p.1 ∈ upList votes ∧ atUser p.1 ∉ downList votes) ∧
      (p.2 = false → atUser p.1 ∈ downList votes ∧ atUser p.1 ∉ upList votes)) := by
  refine ⟨sorted_sortStrings _, sorted_sortStrings _, ?_, ?_⟩
  · rintro s ⟨hu, hd⟩
    rcases mem_upList.mp hu with ⟨u1, hm1, rfl⟩
    rcases mem_downList.mp hd with ⟨u2, hm2, he⟩
    have : u1 = u2 := atUser_inj he
    subst this
    exact absurd (nodup_keys_value votes hnd hm1 hm2) (by decide)
  · rintro ⟨u, b⟩ hp
    constructor
    · rintro rfl
      refine ⟨mem_upList.mpr ⟨u, hp, rfl⟩, ?_⟩
      intro hd
      rcases mem_downList.mp hd with ⟨u2, hm2, he⟩
      have : u = u2 := atUser_inj he
      subst this
      exact absurd (nodup_keys_value votes hnd hp hm2) (by decide)
    · rintro rfl
      refine ⟨mem_downList.mpr ⟨u, hp, rfl⟩, ?_⟩
      intro hu
      rcases mem_upList.mp hu with ⟨u2, hm2, he⟩
      have : u = u2 := atUser_inj he
      subst this
      exact absurd (nodup_keys_value votes hnd hp hm2) (by decide)

/-- C6 instantiated at a concrete two-user vote mapping. -/
theorem c6_witness :
    List.Sorted strLe (upList [("bob", true), ("alice", false)]) :=
  (c6_vote_lists [("bob", true), ("alice", false)] (by decide)).1

/-- C7: a comment not authored by the engine whose text contains both
`:+1:` and `:-1:` records an approve vote (`true`) for its author — the
up-vote branch is tested first. -/
theorem c7_both_tokens_approve (st : VMap × RMap) (c : Comment)
    (hb : c.user ≠ githubUser)
    (hup : containsTok c.text upTok = true)
    (hdown : containsTok c.text downTok = true) :
    lookupVote (aggStep st c).1 c.user = some true := by
  have h1 : (c.user == githubUser) = false := beq_eq_false_iff_ne.mpr hb
  simp only [aggStep, h1, Bool.false_eq_true, if_false, hup, if_true]
  exact lookupVote_setVote st.1 c.user true

/-- C7 instantiated: a comment carrying both vote markers yields an approve
vote for its author. -/
theorem c7_witness :
    lookupVote (aggStep ([], []) ⟨1, "carol", "x :+1: y :-1: z"⟩).1 "carol" = some true :=
  c7_both_tokens_approve ([], []) ⟨1, "carol", "x :+1: y :-1: z"⟩
    (by decide) (by decide) (by decide)

/-- C8: a key of the disabled-reaction set never appears as a code of the
aggregated reaction mapping, nor among the reaction rows the report
renders, for any comment history. -/
theorem c8_disabled_never_tallied (cs : List Comment) (k : String) (hk : disabled k = true) :
    (∀ p ∈ (aggregate cs).2, p.1 ≠ k) ∧ k ∉ reactionOrder (aggregate cs).2 := by
  have hkey : ∀ p ∈ (aggregate cs).2, p.1 ≠ k := by
    intro p hp heq
    have h := (keys_aggregate hp).1
    rw [heq, hk] at h
    exact absurd h (by decide)
  refine ⟨hkey, ?_⟩
  intro hmem
  rcases mem_reactionOrder hmem with ⟨p, hp, he⟩
  exact hkey p hp he

/-- C8 instantiated: the disabled key `:+1` yields no reaction row even
when the marker occurs in a comment. -/
theorem c8_witness :
    ":+1" ∉ reactionOrder (aggregate [⟨1, "dave", ":+1: :fire:"⟩]).2 :=
  (c8_disabled_never_tallied [⟨1, "dave", ":+1: :fire:"⟩] ":+1" (by decide)).2

/-- C9: every code the scanner extracts matches `:[a-z0-9_]+:` (so the vote
tokens `:+1:`/`:-1:`, which contain `+`/`-`, are never extracted); the
disabled-set membership test plays no part in that exclusion, since its
keys `:+1` and `:-1` lack the trailing colon and equal no extracted code;
and consequently the aggregated reaction mapping never carries `:+1:` or
`:-1:` as a code. -/
theorem c9_vote_tokens_never_reactions :
    (∀ s e : List Char, e ∈ findEmojis s →
      isEmojiShape e = true ∧ disabled (strOfChars e) = false) ∧
    (∀ cs : List Comment, ∀ p ∈ (aggregate cs).2, p.1 ≠ ":+1:" ∧ p.1 ≠ ":-1:") := by
  constructor
  · intro s e he
    exact ⟨shape_findEmojis he, shape_not_disabled (shape_findEmojis he)⟩
  · intro cs p hp
    have h := (keys_aggregate hp).2
    constructor
    · intro heq
      rw [heq] at h
      exact absurd h (by decide)
    · intro heq
      rw [heq] at h
      exact absurd h (by decide)

/-- C9 instantiated at a concrete extracted code. -/
theorem c9_witness :
    isEmojiShape ":ok:".data = true ∧ disabled (strOfChars ":ok:".data) = false :=
  c9_vote_tokens_never_reactions.1 ":ok:".data ":ok:".data (by decide)

/-- C10: an "opened" notification from a third-party sender carrying
neither an issue nor a pull-request payload is not rejected: the handler
still issues exactly one create operation, targeting thread number 0, with
the empty-tally report as body. -/
theorem c10_opened_no_payload (e : Event) (cs : List Comment) (now : String)
    (hs : e.sender ≠ githubUser) (ha : e.action = "opened")
    (hi : e.issue = none) (hp : e.pull = none) :
    handle e cs now = (HResp.ok, [StoreOp.create e.owner e.repo 0 (status "" [] [] now)]) := by
  have h1 : (e.sender == githubUser) = false := beq_eq_false_iff_ne.mpr hs
  simp [handle, h1, ha, hi, hp]

/-- C10 instantiated at a concrete payload-free "opened" event. -/
theorem c10_witness :
    handle ⟨"opened", "erin", none, none, "own", "repo"⟩ [] "T" =
      (HResp.ok, [StoreOp.create "own" "repo" 0 (status "" [] [] "T")]) :=
  c10_opened_no_payload ⟨"opened", "erin", none, none, "own", "repo"⟩ [] "T"
    (by decide) rfl rfl rfl

end Robotally

namespace Robotally

example : findEmojis ":a:b:".data = [":a:".data] := by decide
example : findEmojis "x :tada: y ::+1: :ok_1:".data = [":tada:".data, ":ok_1:".data] := by decide
example : containsTok ":+1: hi".data upTok = true := by decide
example : aggregate [⟨1, "alice", ":+1:"⟩, ⟨2, "bob", ":-1: :tada:"⟩] =
    ([("alice", true), ("bob", false)], [(":tada:", ["bob"])]) := by decide

end Robotally
